import Mathlib

/-!
Verification of the core of a music-streaming client/server
(`mediaplayer.py`, `player.py`, `clienthandler.py`, `controller.py`):
a shallow embedding of the playback queue (`SongQueue`), the queue
reordering operations (`move_up`/`move_down`), the seek mapping
(`Player.set_progress`), the chunked search-result transfer, and the
audio-channel streaming protocol, together with theorems settling the
specification's claims about them.

Bytes are modelled as natural numbers, byte strings as `List ℕ`, the two
TCP byte streams as `List ℕ` consumed from the front, and Python
exceptions as `Option` failures.  Randomness (`random.choice`) and the
asynchronous stop flag of the server's streaming loop are modelled as
externally supplied functions `ℕ → ℕ` / `ℕ → Bool` giving the value
consumed or observed at each loop step.
-/

namespace MusicApp

open scoped List

/-! ## Bytes and blocking socket transfers -/

/-- Little-endian 4-byte encoding of a natural number, as produced by
Python's `n.to_bytes(4, "little")` (which raises for `n ≥ 2^32`;
every count the claims exercise is below that bound). -/
def toB4 (n : ℕ) : List ℕ :=
  [n % 256, n / 256 % 256, n / 65536 % 256, n / 16777216 % 256]

/-- Little-endian decoding of a byte string, as Python's
`int.from_bytes(bs, "little")`. -/
def fromLE (bs : List ℕ) : ℕ :=
  bs.foldr (fun b acc => b + 256 * acc) 0

/-- Receive exactly `k` bytes from the front of stream `s`.  The
`*_tcp_recv` helpers loop on `recv` until `k` bytes have arrived and
raise when the peer closes early; a stream holding fewer than `k` bytes
is modelled as the failure `none`. -/
def recvN (k : ℕ) (s : List ℕ) : Option (List ℕ × List ℕ) :=
  if k ≤ s.length then some (s.take k, s.drop k) else none

/-! ## Songs -/

/-- Conversion of a duration in seconds to `"mm:ss"`
(`Song._seconds_to_string`, f-string `{x:0>2d}` zero padding). -/
def secondsToString (seconds : ℕ) : String :=
  let minutes := seconds / 60
  let secs := seconds % 60
  (if minutes < 10 then "0" ++ toString minutes else toString minutes) ++ ":" ++
    (if secs < 10 then "0" ++ toString secs else toString secs)

/-- The `Song` data class (`song.py`): identifier, name, artist, duration
in seconds, the derived `"mm:ss"` string and the cover-image bytes. -/
structure Song where
  song_id : ℕ
  song_name : String
  artist_name : String
  duration : ℕ
  duration_string : String
  image_binary : List ℕ
deriving DecidableEq, Repr

instance : Inhabited Song := ⟨⟨0, "", "", 0, "", []⟩⟩

/-- The `Song.__init__` constructor, which derives `duration_string`. -/
def mkSong (song_id : ℕ) (song_name artist_name : String) (duration : ℕ)
    (image_binary : List ℕ) : Song :=
  ⟨song_id, song_name, artist_name, duration, secondsToString duration, image_binary⟩

/-! ## The playback queue (`SongQueue`)

`SongQueue` keeps two lists: `_queue` holds `Song` objects in play order,
and `_ordered_queue` records the insertion order.  The code's own comment
says `_ordered_queue` stores song ids (`append_to_queue` appends
`song.song_id`), but `insert_to_queue` inserts the whole `Song` object,
so an entry is either an id or a song. -/

/-- An entry of `SongQueue._ordered_queue`: a song id (what
`append_to_queue` stores) or a whole `Song` object (what
`insert_to_queue` stores). -/
inductive QEntry where
  | eid (n : ℕ)
  | esong (s : Song)
deriving DecidableEq, Repr

/-- Python's `sid == entry` (and `entry == sid`) where `sid` is an `int`
song id and `entry` an element of `_ordered_queue`: ints compare by
value, and an `int` never equals a `Song` instance (no `__eq__`). -/
def idEqEntry (sid : ℕ) : QEntry → Bool
  | .eid n => sid == n
  | .esong _ => false

structure SongQueue where
  queue : List Song
  ordered : List QEntry
deriving DecidableEq, Repr

/-- Python `list.insert(i, x)` for a nonnegative index: insert before
position `i`, appending when `i ≥ length` (no caller passes a negative
index). -/
def pyInsert : ℕ → α → List α → List α
  | _, x, [] => [x]
  | 0, x, l => x :: l
  | n + 1, x, a :: l => a :: pyInsert n x l

/-- Python index resolution for `l[i]` / `l.pop(i)`: a negative index
counts from the end, and an out-of-range index raises (`none`). -/
def pyIdx (len : ℕ) (i : ℤ) : Option ℕ :=
  let j : ℤ := if i < 0 then i + len else i
  if 0 ≤ j ∧ j < len then some j.toNat else none

/-- Python `list.remove` with the match test `p` already applied: remove
the first matching element; `ValueError` (no match) is `none`. -/
def pyRemove (p : α → Bool) : List α → Option (List α)
  | [] => none
  | a :: l => if p a then some l else (pyRemove p l).map (a :: ·)

/-- `SongQueue.clear_queue`. -/
def SongQueue.clear_queue (_q : SongQueue) : SongQueue := ⟨[], []⟩

/-- `SongQueue.append_to_queue`: append the song to `_queue` and its
`song_id` to `_ordered_queue`. -/
def SongQueue.append_to_queue (q : SongQueue) (song : Song) : SongQueue :=
  ⟨q.queue ++ [song], q.ordered ++ [.eid song.song_id]⟩

/-- `SongQueue.insert_to_queue`: insert the song into `_queue` at `index`
and — as the source is written — insert the `Song` object itself (not its
id) into `_ordered_queue` at the same index. -/
def SongQueue.insert_to_queue (q : SongQueue) (index : ℕ) (song : Song) : SongQueue :=
  ⟨pyInsert index song q.queue, pyInsert index (.esong song) q.ordered⟩

/-- `SongQueue.pop_from_queue`: read the song at `index`, remove the
first `_ordered_queue` entry equal to its `song_id` (a `ValueError` when
no entry is that id is `none`), then pop the song. -/
def SongQueue.pop_from_queue (q : SongQueue) (index : ℤ) : Option SongQueue := do
  let j ← pyIdx q.queue.length index
  let s ← q.queue[j]?
  let ord ← pyRemove (idEqEntry s.song_id) q.ordered
  some ⟨q.queue.eraseIdx j, ord⟩

/-- The Python parallel swap `l[i], l[j] = l[j], l[i]`.  An out-of-range
index would raise; it is modelled as a no-op, and no claim reaches that
case. -/
def listSwap (l : List α) (i j : ℕ) : List α :=
  match l[i]?, l[j]? with
  | some a, some b => (l.set i b).set j a
  | _, _ => l

/-- Python `random.choice(r)` driven by an external random value `n`: as
`n` ranges over ℕ the result ranges over all of `r` (`choice` on an empty
sequence raises; the one shuffle call site never does that). -/
def pyChoice (r : List ℕ) (n : ℕ) : ℕ := r.getD (n % r.length) 0

/-- `SongQueue.shuffle`: when the queue is nonempty, for every position
`i ≠ current_song_index` swap position `i` with a randomly chosen
position from `r`, the list of all positions except
`current_song_index`.  The random stream is `f`: step `i` consumes
`f i`. -/
def SongQueue.shuffle (q : SongQueue) (cur : ℕ) (f : ℕ → ℕ) : SongQueue :=
  if q.queue.isEmpty then q
  else
    let r := List.range cur ++ List.range' (cur + 1) (q.queue.length - (cur + 1))
    ⟨(List.range q.queue.length).foldl
        (fun ql i => if i ≠ cur then listSwap ql i (pyChoice r (f i)) else ql) q.queue,
      q.ordered⟩

/-- The loop body of `SongQueue.unshuffle`: for each `i`, look up
`_ordered_queue[i]` (an `IndexError` aborts: `none` branch), find the
first current position whose song id equals it (`next(...)` raises
`StopIteration` when there is none, aborting the loop with the list as
mutated so far), and swap that position into `i` unless either position
is `cur`. -/
def unshuffleGo (ordered : List QEntry) (cur : ℕ) : ℕ → ℕ → List Song → List Song
  | 0, _, ql => ql
  | fuel + 1, i, ql =>
    match ordered[i]? with
    | none => ql
    | some e =>
      match ql.findIdx? (fun s => idEqEntry s.song_id e) with
      | none => ql
      | some oi =>
        unshuffleGo ordered cur fuel (i + 1)
          (if i ≠ cur ∧ oi ≠ cur then listSwap ql i oi else ql)

/-- `SongQueue.unshuffle`: restore play order from `_ordered_queue`,
skipping any swap that touches position `cur`. -/
def SongQueue.unshuffle (q : SongQueue) (cur : ℕ) : SongQueue :=
  if q.queue.isEmpty then q
  else ⟨unshuffleGo q.ordered cur q.queue.length 0 q.queue, q.ordered⟩

/-! ## MediaPlayer queue reordering -/

/-- `MediaPlayer.move_up` restricted to its effect on the play-order
list.  `streamingActive` is `not self._currently_streaming.is_set()`
(the event is cleared while a stream is active). -/
def move_up (queue : List Song) (cur : ℕ) (streamingActive : Bool)
    (song_index : ℕ) : List Song :=
  let start := if streamingActive then cur + 1 else cur
  if song_index > start then listSwap queue song_index (song_index - 1) else queue

/-- `MediaPlayer.move_down` restricted to its effect on the play-order
list: the only guard is `song_index < len(queue) - 1`. -/
def move_down (queue : List Song) (song_index : ℕ) : List Song :=
  if song_index < queue.length - 1 then listSwap queue song_index (song_index + 1)
  else queue

/-! ## The seek mapping (`Player.set_progress`) -/

/-- Python's built-in `round` on a rational: nearest integer, ties to
even.  (`Player.set_progress` computes `(value / 1000) * (length - 1)`
in floating point; both factors and their product are exact binary
fractions for every value the claims exercise, so the rational model
agrees with the float computation there.) -/
def pyRound (q : ℚ) : ℤ :=
  let f := ⌊q⌋
  let r := q - f
  if r < 1 / 2 then f
  else if 1 / 2 < r then f + 1
  else if f % 2 = 0 then f else f + 1

/-- `Player.set_progress`: clamp `value` into 0–1000, map it linearly
onto an index of `0 .. song_data_length - 1` with Python `round`, and
clamp a negative index to 0. -/
def set_progress (song_data_length : ℤ) (value : ℤ) : ℤ :=
  let v := if value < 0 then 0 else if value > 1000 then 1000 else value
  let idx := pyRound (((v : ℚ) / 1000) * ((song_data_length : ℚ) - 1))
  if idx < 0 then 0 else idx

/-! ## The audio channel -/

/-- The bytes of `"data".encode("utf-8")`. -/
def dataTag : List ℕ := [100, 97, 116, 97]

/-- The bytes of `"exit".encode("utf-8")`. -/
def exitTag : List ℕ := [101, 120, 105, 116]

/-- The bytes of `"END_OF_FILE".encode("utf-8")`, the reserved buffer
sentinel (never a valid 4096-byte audio packet). -/
def sentinel : List ℕ := [69, 78, 68, 95, 79, 70, 95, 70, 73, 76, 69]

/-- The frame loop of `ClientHandler._send_song_data`.  `reads` lists the
successive `readframes(1024)` results (the wave file yields a short or
empty read at its end, which terminates the loop: an incomplete packet
is never sent); `stops i` is the value of the advisory `_stop_send` flag
when the loop tests it before sending frame `i`.  Returns the bytes sent
and the flag's value when the loop exits: observing the flag set clears
it, sends the `"exit"` tag, and stops. -/
def sendFrames (stops : ℕ → Bool) : ℕ → List (List ℕ) → List ℕ × Bool
  | i, [] => ([], stops i)
  | i, r :: rest =>
    if r.length = 4096 then
      if stops i then (exitTag, false)
      else
        let k := sendFrames stops (i + 1) rest
        (dataTag ++ r ++ k.1, k.2)
    else ([], stops i)

/-- `ClientHandler._send_song_data`: look the requested id up in the
catalog (modelled as a function to the `readframes` sequence and the
declared frame count); reply with the 4-byte frame count followed by the
frame loop's output, or with a 4-byte zero count when the id is absent. -/
def send_song_data (catalog : ℕ → Option (List (List ℕ) × ℕ)) (song_id : ℕ)
    (stops : ℕ → Bool) : List ℕ :=
  match catalog song_id with
  | some (reads, len) => toB4 len ++ (sendFrames stops 0 reads).1
  | none => toB4 0

/-- The per-song packet loop of `MediaPlayer._read_from_server`: for each
of the announced frames read a 4-byte type tag; `"data"` is followed by a
4096-byte packet appended to the player buffer, `"exit"` breaks out. -/
def readPackets : ℕ → List ℕ → Option (List (List ℕ) × List ℕ)
  | 0, s => some ([], s)
  | n + 1, s => do
    let (t, s1) ← recvN 4 s
    if t = dataTag then do
      let (p, s2) ← recvN 4096 s1
      let (ps, s3) ← readPackets n s2
      some (p :: ps, s3)
    else if t = exitTag then some ([], s1)
    else readPackets n s1

/-- One round of `MediaPlayer._read_from_server`: read the 4-byte frame
count, run the packet loop, and finally append the `END_OF_FILE`
sentinel to the player buffer.  Returns the buffer entries produced and
the unconsumed stream. -/
def read_from_server (s : List ℕ) : Option (List (List ℕ) × List ℕ) := do
  let (cB, s1) ← recvN 4 s
  let (ps, s2) ← readPackets (fromLE cB) s1
  some (ps ++ [sentinel], s2)

/-- The packets `Player.stream_loop` writes to the audio device when run
from index 0 over a completely received buffer with no stop request: it
writes entries in order and halts at the sentinel without writing it (a
zero-length stream, buffer `[sentinel]`, writes nothing and raises
nothing). -/
def playerWrites : List (List ℕ) → List (List ℕ)
  | [] => []
  | p :: rest => if p = sentinel then [] else p :: playerWrites rest

/-! ## The chunked search-result transfer (control channel) -/

/-- The slices `[p[i:i+1024] for i in range(0, len(p), 1024)]`. -/
def pyChunks : List ℕ → List (List ℕ)
  | [] => []
  | a :: l => ((a :: l).take 1024) :: pyChunks ((a :: l).drop 1024)
termination_by l => l.length
decreasing_by simp; omega

/-- `ClientHandler.slice_song_bytes`: the 1024-byte chunks of a
serialized song together with `math.ceil(len / 1024)` (`len / 1024` is
exact in floating point, so the ceiling equals `(len + 1023) / 1024`). -/
def slice_song_bytes (serialized_song : List ℕ) : List (List ℕ) × ℕ :=
  (pyChunks serialized_song, (serialized_song.length + 1023) / 1024)

/-- The bytes `ClientHandler._search_for_song` sends for one serialized
song: the 4-byte chunk count, the first `data_length - 1` chunks with no
per-chunk prefix, then the 4-byte length of the last chunk and the last
chunk itself.  On an empty payload `data[-1]` raises `IndexError`
(after the count was already sent), so no well-formed transfer exists:
`none`. -/
def sendChunked (payload : List ℕ) : Option (List ℕ) :=
  let data := (slice_song_bytes payload).1
  let dl := (slice_song_bytes payload).2
  match data.getLast? with
  | none => none
  | some last =>
    some (toB4 dl ++ (data.take (dl - 1)).flatten ++ toB4 last.length ++ last)

/-- Receive `n` raw 1024-byte chunks, concatenated (the
`for j in range(data_length - 1)` loop of
`Controller._search_request_handler`). -/
def recvChunks : ℕ → List ℕ → Option (List ℕ × List ℕ)
  | 0, s => some ([], s)
  | n + 1, s => do
    let (c, s1) ← recvN 1024 s
    let (rest, s2) ← recvChunks n s1
    some (c ++ rest, s2)

/-- The client's decoder for one chunk-transferred serialized song
(`Controller._search_request_handler`): read the 4-byte chunk count,
`count - 1` raw 1024-byte chunks, then the 4-byte last-chunk length and
the last chunk; the payload is the concatenation. -/
def recvChunked (s : List ℕ) : Option (List ℕ × List ℕ) := do
  let (dlB, s1) ← recvN 4 s
  let (body, s2) ← recvChunks (fromLE dlB - 1) s1
  let (llB, s3) ← recvN 4 s2
  let (last, s4) ← recvN (fromLE llB) s3
  some (body ++ last, s4)

/-! ## Concrete sample data used by witnesses and counterexamples -/

/-- Sample song with id 1. -/
def sA : Song := mkSong 1 "On" "Cartoon" 207 []

/-- Sample song with id 2. -/
def sB : Song := mkSong 2 "Whatever" "Cartoon" 205 []

/-- Sample song with id 3. -/
def sC : Song := mkSong 3 "Xeno" "TheFatRat" 233 []

/-- A queue holding songs 3, 1, 2 in play order while the insertion
order records ids 1, 2, 3 (reachable by three appends followed by a
shuffle). -/
def qShuffled : SongQueue := ⟨[sC, sA, sB], [.eid 1, .eid 2, .eid 3]⟩

/-- A queue holding songs 3, 2, 1 in play order while the insertion
order records ids 1, 2, 3. -/
def qShuffled2 : SongQueue := ⟨[sC, sB, sA], [.eid 1, .eid 2, .eid 3]⟩

/-! ## List lemmas -/

theorem listSwap_getElem?_ne {α : Type*} {l : List α} {i j k : ℕ} (hki : k ≠ i)
    (hkj : k ≠ j) : (listSwap l i j)[k]? = l[k]? := by
  unfold listSwap
  cases h1 : l[i]? <;> cases h2 : l[j]? <;> try rfl
  rw [List.getElem?_set_ne (Ne.symm hkj), List.getElem?_set_ne (Ne.symm hki)]

theorem listSwap_getElem?_left {α : Type*} {l : List α} {i j : ℕ} (hi : i < l.length)
    (hj : j < l.length) : (listSwap l i j)[i]? = l[j]? := by
  unfold listSwap
  rw [List.getElem?_eq_getElem hi, List.getElem?_eq_getElem hj]
  by_cases hij : i = j
  · subst hij
    rw [List.getElem?_set_self (by simpa using hi)]
  · rw [List.getElem?_set_ne (Ne.symm hij), List.getElem?_set_self hi]

theorem listSwap_length {α : Type*} (l : List α) (i j : ℕ) :
    (listSwap l i j).length = l.length := by
  unfold listSwap
  cases h1 : l[i]? <;> cases h2 : l[j]? <;> simp

theorem getElem?_cons_eraseIdx_perm {α : Type*} {l : List α} {n : ℕ} {b : α}
    (h : l[n]? = some b) : l ~ b :: l.eraseIdx n := by
  induction l generalizing n with
  | nil => simp at h
  | cons x xs ih =>
    cases n with
    | zero =>
      simp only [List.getElem?_cons_zero, Option.some.injEq] at h
      subst h
      rfl
    | succ m =>
      simp only [List.getElem?_cons_succ] at h
      simp only [List.eraseIdx_cons_succ]
      calc x :: xs ~ x :: (b :: xs.eraseIdx m) := (ih h).cons x
        _ ~ b :: (x :: xs.eraseIdx m) := List.Perm.swap b x _

theorem set_cons_eraseIdx_perm {α : Type*} {l : List α} {n : ℕ} {b : α}
    (h : l[n]? = some b) (a : α) : l.set n a ~ a :: l.eraseIdx n := by
  induction l generalizing n with
  | nil => simp at h
  | cons x xs ih =>
    cases n with
    | zero => rfl
    | succ m =>
      simp only [List.getElem?_cons_succ] at h
      simp only [List.set_cons_succ, List.eraseIdx_cons_succ]
      calc x :: xs.set m a ~ x :: (a :: xs.eraseIdx m) := (ih h).cons x
        _ ~ a :: (x :: xs.eraseIdx m) := List.Perm.swap a x _

theorem listSwap_perm {α : Type*} : ∀ (l : List α) (i j : ℕ), listSwap l i j ~ l
  | [], _, _ => by simp [listSwap]
  | x :: xs, 0, 0 => by
    simp [listSwap]
  | x :: xs, 0, m + 1 => by
    cases h2 : xs[m]? with
    | none => simp [listSwap, h2]
    | some b =>
      have heq : listSwap (x :: xs) 0 (m + 1) = b :: xs.set m x := by
        simp [listSwap, h2]
      rw [heq]
      calc b :: xs.set m x ~ b :: (x :: xs.eraseIdx m) :=
            (set_cons_eraseIdx_perm h2 x).cons b
        _ ~ x :: (b :: xs.eraseIdx m) := List.Perm.swap x b _
        _ ~ x :: xs := ((getElem?_cons_eraseIdx_perm h2).symm).cons x
  | x :: xs, n + 1, 0 => by
    cases h1 : xs[n]? with
    | none => simp [listSwap, h1]
    | some a =>
      have heq : listSwap (x :: xs) (n + 1) 0 = a :: xs.set n x := by
        simp [listSwap, h1]
      rw [heq]
      calc a :: xs.set n x ~ a :: (x :: xs.eraseIdx n) :=
            (set_cons_eraseIdx_perm h1 x).cons a
        _ ~ x :: (a :: xs.eraseIdx n) := List.Perm.swap x a _
        _ ~ x :: xs := ((getElem?_cons_eraseIdx_perm h1).symm).cons x
  | x :: xs, n + 1, m + 1 => by
    have heq : listSwap (x :: xs) (n + 1) (m + 1) = x :: listSwap xs n m := by
      unfold listSwap
      cases h1 : xs[n]? <;> cases h2 : xs[m]? <;> simp [h1, h2]
    rw [heq]
    exact (listSwap_perm xs n m).cons x

theorem foldl_inv {β γ : Type*} (P : γ → Prop) (f : γ → β → γ) :
    ∀ (l : List β) (b : γ), P b → (∀ acc x, x ∈ l → P acc → P (f acc x)) →
      P (l.foldl f b) := by
  intro l
  induction l with
  | nil => intro b hb _; simpa using hb
  | cons x xs ih =>
    intro b hb hstep
    simp only [List.foldl_cons]
    exact ih _ (hstep b x (by simp) hb)
      (fun acc y hy hacc => hstep acc y (by simp [hy]) hacc)

theorem pyChoice_mem {r : List ℕ} (h : r ≠ []) (n : ℕ) : pyChoice r n ∈ r := by
  unfold pyChoice
  have hlen : 0 < r.length := List.length_pos.mpr h
  have hlt : n % r.length < r.length := Nat.mod_lt _ hlen
  rw [List.getD_eq_getElem?_getD, List.getElem?_eq_getElem hlt]
  exact List.getElem_mem hlt

/-- Every element of the shuffle candidate list `r` differs from the
current index. -/
theorem shuffleR_ne_cur {cur len m : ℕ}
    (hm : m ∈ List.range cur ++ List.range' (cur + 1) (len - (cur + 1))) :
    m ≠ cur := by
  rcases List.mem_append.mp hm with h | h
  · have := List.mem_range.mp h
    omega
  · obtain ⟨i, hi, rfl⟩ := List.mem_range'.mp h
    omega

/-- The shuffle candidate list is nonempty whenever some in-range
position other than the current one exists. -/
theorem shuffleR_ne_nil {cur len i : ℕ} (hi : i < len) (hne : i ≠ cur) :
    (List.range cur ++ List.range' (cur + 1) (len - (cur + 1))) ≠ [] := by
  intro hcontra
  rw [List.append_eq_nil] at hcontra
  have h1 : cur = 0 := by
    have := congrArg List.length hcontra.1
    simpa using this
  have h2 : len - (cur + 1) = 0 := by
    have := congrArg List.length hcontra.2
    simpa using this
  omega

/-! ## Claim C1 -/

/-- The property claim C1 asserts of every reachable `SongQueue`: the
multiset of song identifiers of the play-order list equals the multiset
of entries of the insertion-order list (identifiers and entries compared
as `_ordered_queue` entries). -/
def idMultisetInv (q : SongQueue) : Prop :=
  ((q.queue.map (fun s => QEntry.eid s.song_id) : List QEntry) : Multiset QEntry) =
    (q.ordered : Multiset QEntry)

instance (q : SongQueue) : Decidable (idMultisetInv q) := by
  unfold idMultisetInv
  infer_instance

/-- Claim C1 (code bug): a single `insert_to_queue` on the empty queue
already breaks the multiset invariant, because the source inserts the
`Song` object itself into `_ordered_queue` where every other operation
stores the song id; the subsequent `pop_from_queue 0` then raises
`ValueError` (here `none`) since no entry equals the id it removes. -/
theorem C1_insert_breaks_invariant :
    ¬ idMultisetInv (SongQueue.insert_to_queue ⟨[], []⟩ 0 sA) ∧
      SongQueue.pop_from_queue (SongQueue.insert_to_queue ⟨[], []⟩ 0 sA) 0 = none := by
  constructor
  · decide
  · decide

/-! ## Claim C4 -/

/-- Claim C4: for every queue, in-range current index and sequence of
random choices, `shuffle` leaves the element at the current index
unchanged. -/
theorem C4_shuffle_fixes_current (q : SongQueue) (cur : ℕ) (f : ℕ → ℕ)
    (hcur : cur < q.queue.length) :
    (q.shuffle cur f).queue[cur]? = q.queue[cur]? := by
  unfold SongQueue.shuffle
  have hne : ¬ q.queue.isEmpty := by
    rw [List.isEmpty_iff]
    intro h
    rw [h] at hcur
    simp at hcur
  rw [if_neg hne]
  exact foldl_inv (fun ql => ql[cur]? = q.queue[cur]?) _ _ _ rfl
    (by
      intro acc i hi hacc
      by_cases hic : i = cur
      · simpa [hic] using hacc
      · rw [if_pos hic]
        have hrne := shuffleR_ne_nil (List.mem_range.mp hi) hic
        have hch := shuffleR_ne_cur (pyChoice_mem hrne (f i))
        rw [listSwap_getElem?_ne (Ne.symm hic) (Ne.symm hch)]
        exact hacc)

/-- Witness for C4 at a concrete queue. -/
theorem C4_witness :
    (qShuffled.shuffle 1 (fun n => n + 3)).queue[1]? = qShuffled.queue[1]? :=
  C4_shuffle_fixes_current qShuffled 1 (fun n => n + 3) (by decide)

/-! ## Claim C10 -/

/-- The play-order list after `unshuffleGo` is a permutation of the one
before: every step is a `listSwap` or the identity. -/
theorem unshuffleGo_perm (ordered : List QEntry) (cur : ℕ) :
    ∀ (fuel i : ℕ) (ql : List Song), unshuffleGo ordered cur fuel i ql ~ ql := by
  intro fuel
  induction fuel with
  | zero => intro i ql; rfl
  | succ n ih =>
    intro i ql
    rw [unshuffleGo]
    split
    · rfl
    · split
      · rfl
      · split
        · exact (ih (i + 1) _).trans (listSwap_perm ql i _)
        · exact ih (i + 1) ql

/-- Claim C10: for every queue and in-range current index, `shuffle` and
`unshuffle` leave the insertion-order list unchanged and permute the
play-order list (same multiset of songs before and after). -/
theorem C10_shuffle_unshuffle_frame (q : SongQueue) (cur : ℕ) (f : ℕ → ℕ)
    (hcur : cur < q.queue.length) :
    (q.shuffle cur f).ordered = q.ordered ∧
      ((q.shuffle cur f).queue : Multiset Song) = (q.queue : Multiset Song) ∧
      (q.unshuffle cur).ordered = q.ordered ∧
      ((q.unshuffle cur).queue : Multiset Song) = (q.queue : Multiset Song) := by
  have hne : ¬ q.queue.isEmpty := by
    rw [List.isEmpty_iff]
    intro h
    rw [h] at hcur
    simp at hcur
  refine ⟨?_, ?_, ?_, ?_⟩
  · unfold SongQueue.shuffle
    rw [if_neg hne]
  · unfold SongQueue.shuffle
    rw [if_neg hne]
    rw [Multiset.coe_eq_coe]
    exact foldl_inv (fun ql => ql ~ q.queue) _ _ _ (List.Perm.refl _)
      (by
        intro acc i _ hacc
        by_cases hic : i = cur
        · simpa [hic] using hacc
        · rw [if_pos hic]
          exact (listSwap_perm acc i _).trans hacc)
  · unfold SongQueue.unshuffle
    rw [if_neg hne]
  · unfold SongQueue.unshuffle
    rw [if_neg hne]
    rw [Multiset.coe_eq_coe]
    exact unshuffleGo_perm q.ordered cur q.queue.length 0 q.queue

/-- Witness for C10 at a concrete queue. -/
theorem C10_witness :
    (qShuffled.shuffle 0 (fun _ => 1)).ordered = qShuffled.ordered ∧
      ((qShuffled.shuffle 0 (fun _ => 1)).queue : Multiset Song) =
        (qShuffled.queue : Multiset Song) ∧
      (qShuffled.unshuffle 0).ordered = qShuffled.ordered ∧
      ((qShuffled.unshuffle 0).queue : Multiset Song) =
        (qShuffled.queue : Multiset Song) :=
  C10_shuffle_unshuffle_frame qShuffled 0 (fun _ => 1) (by decide)

/-! ## Claim C5 -/

/-- Claim C5 is false: `move_down` checks only `song_index < len - 1`
and never consults the currently playing index.  With play order
`[sA, sB, sC]`, the currently playing index 2 and a stream active,
`move_down 1` swaps positions 1 and 2 and so moves the song at the
currently playing index itself — the claim says a song at or before the
currently playing index is never reordered. -/
theorem C5_counterexample :
    ¬ ((move_down [sA, sB, sC] 1)[2]? = [sA, sB, sC][2]?) := by
  decide

/-- Claim C5 as amended: `move_up` swaps `song_index` with
`song_index - 1` only when `song_index` exceeds `start`
(`cur + 1` while streaming), so while a stream is active it never
changes any position at or before the currently playing index;
`move_down`, by contrast, has no currently-playing guard — it swaps
whenever `song_index < len - 1`, touching exactly positions
`song_index` and `song_index + 1` and preserving the queue's multiset
of songs. -/
theorem C5_amended :
    (∀ (q : List Song) (cur i j : ℕ), j ≤ cur → (move_up q cur true i)[j]? = q[j]?) ∧
      (∀ (q : List Song) (i j : ℕ), j ≠ i → j ≠ i + 1 →
        (move_down q i)[j]? = q[j]?) ∧
      (∀ (q : List Song) (i : ℕ), (move_down q i : Multiset Song) = (q : Multiset Song)) := by
  refine ⟨?_, ?_, ?_⟩
  · intro q cur i j hj
    unfold move_up
    by_cases hi : i > (if true then cur + 1 else cur)
    · rw [if_pos hi]
      simp only [if_pos trivial] at hi
      exact listSwap_getElem?_ne (by omega) (by omega)
    · rw [if_neg hi]
  · intro q i j hj1 hj2
    unfold move_down
    by_cases hi : i < q.length - 1
    · rw [if_pos hi]
      exact listSwap_getElem?_ne hj1 hj2
    · rw [if_neg hi]
  · intro q i
    unfold move_down
    by_cases hi : i < q.length - 1
    · rw [if_pos hi, Multiset.coe_eq_coe]
      exact listSwap_perm q i (i + 1)
    · rw [if_neg hi]

/-- Witness for the amended C5 at concrete inputs. -/
theorem C5_amended_witness :
    (move_up [sA, sB, sC] 2 true 1)[0]? = [sA, sB, sC][0]? ∧
      (move_down [sA, sB, sC] 0)[2]? = [sA, sB, sC][2]? ∧
      (move_down [sA, sB, sC] 0 : Multiset Song) = ([sA, sB, sC] : Multiset Song) :=
  ⟨C5_amended.1 [sA, sB, sC] 2 1 0 (by omega),
    C5_amended.2.1 [sA, sB, sC] 0 2 (by omega) (by omega),
    C5_amended.2.2 [sA, sB, sC] 0⟩

/-! ## Claim C6 -/

theorem pyRound_intCast (z : ℤ) : pyRound (z : ℚ) = z := by
  simp only [pyRound]
  rw [Int.floor_intCast]
  norm_num

theorem pyRound_zero : pyRound 0 = 0 := by
  simpa using pyRound_intCast 0

theorem pyRound_ge_floor (q : ℚ) : ⌊q⌋ ≤ pyRound q := by
  simp only [pyRound]
  split_ifs <;> omega

theorem pyRound_le_floor_add_one (q : ℚ) : pyRound q ≤ ⌊q⌋ + 1 := by
  simp only [pyRound]
  split_ifs <;> omega

theorem pyRound_mono {a b : ℚ} (hab : a ≤ b) : pyRound a ≤ pyRound b := by
  by_cases hf : ⌊a⌋ = ⌊b⌋
  · have hr : a - (⌊b⌋ : ℚ) ≤ b - (⌊b⌋ : ℚ) := by linarith
    simp only [pyRound]
    rw [hf]
    split_ifs <;> first | omega | linarith
  · have hlt : ⌊a⌋ < ⌊b⌋ := lt_of_le_of_ne (Int.floor_le_floor hab) hf
    calc pyRound a ≤ ⌊a⌋ + 1 := pyRound_le_floor_add_one a
      _ ≤ ⌊b⌋ := by omega
      _ ≤ pyRound b := pyRound_ge_floor b

theorem clampNeg_mono {a b : ℤ} (h : a ≤ b) :
    (if a < 0 then (0 : ℤ) else a) ≤ (if b < 0 then 0 else b) := by
  split_ifs <;> omega

theorem clampNeg_nonneg (a : ℤ) : 0 ≤ (if a < 0 then (0 : ℤ) else a) := by
  split_ifs <;> omega

theorem clampNeg_le {a c : ℤ} (h : a ≤ c) (hc : 0 ≤ c) :
    (if a < 0 then (0 : ℤ) else a) ≤ c := by
  split_ifs <;> omega

/-- Claim C6: `set_progress` clamps its input to 0–1000 and maps it
linearly and monotonically onto the index range `0 .. n - 1`:
`set_progress 0 = 0`, `set_progress 1000 = n - 1`, on a 50-frame song
`set_progress 500 = 24` (Python `round(24.5)` is 24, ties to even), the
map is monotone, and its result always lies in `0 .. n - 1`. -/
theorem C6_set_progress_spec (n : ℤ) (hn : 1 ≤ n) :
    set_progress n 0 = 0 ∧
      set_progress n 1000 = n - 1 ∧
      set_progress 50 500 = 24 ∧
      (∀ v w : ℤ, v ≤ w → set_progress n v ≤ set_progress n w) ∧
      (∀ v : ℤ, 0 ≤ set_progress n v ∧ set_progress n v ≤ n - 1) := by
  have hn1 : (0 : ℚ) ≤ (n : ℚ) - 1 := by
    have : (1 : ℚ) ≤ (n : ℚ) := by exact_mod_cast hn
    linarith
  refine ⟨?_, ?_, ?_, ?_, ?_⟩
  · simp only [set_progress]
    norm_num [pyRound_zero]
  · simp only [set_progress]
    norm_num
    rw [show ((n : ℚ) - 1) = ((n - 1 : ℤ) : ℚ) by push_cast; ring]
    rw [pyRound_intCast]
    rw [if_neg (by omega)]
  · simp only [set_progress]
    norm_num
    have hfl : ⌊(49 / 2 : ℚ)⌋ = 24 := by
      rw [Int.floor_eq_iff]
      norm_num
    have h24 : pyRound (49 / 2 : ℚ) = 24 := by
      simp only [pyRound, hfl]
      norm_num
    rw [h24]
    norm_num
  · intro v w hvw
    have hclamp : (if v < 0 then 0 else if v > 1000 then (1000 : ℤ) else v) ≤
        (if w < 0 then 0 else if w > 1000 then 1000 else w) := by
      split_ifs <;> omega
    have hq : (((if v < 0 then 0 else if v > 1000 then 1000 else v : ℤ) : ℚ) / 1000) *
          ((n : ℚ) - 1) ≤
        (((if w < 0 then 0 else if w > 1000 then 1000 else w : ℤ) : ℚ) / 1000) *
          ((n : ℚ) - 1) := by
      have hc : (((if v < 0 then 0 else if v > 1000 then 1000 else v : ℤ) : ℚ)) ≤
          (((if w < 0 then 0 else if w > 1000 then 1000 else w : ℤ) : ℚ)) := by
        exact_mod_cast hclamp
      gcongr
    have hm := pyRound_mono hq
    simp only [set_progress]
    exact clampNeg_mono hm
  · intro v
    have hcv : (if v < 0 then 0 else if v > 1000 then (1000 : ℤ) else v) ≤ 1000 := by
      split_ifs <;> omega
    have hq : (((if v < 0 then 0 else if v > 1000 then 1000 else v : ℤ) : ℚ) / 1000) *
        ((n : ℚ) - 1) ≤ ((n - 1 : ℤ) : ℚ) := by
      have h1 : (((if v < 0 then 0 else if v > 1000 then 1000 else v : ℤ) : ℚ) / 1000) ≤ 1 := by
        rw [div_le_one (by norm_num)]
        exact_mod_cast hcv
      calc (((if v < 0 then 0 else if v > 1000 then 1000 else v : ℤ) : ℚ) / 1000) *
            ((n : ℚ) - 1) ≤ 1 * ((n : ℚ) - 1) := mul_le_mul_of_nonneg_right h1 hn1
        _ = ((n - 1 : ℤ) : ℚ) := by push_cast; ring
    have hub := (pyRound_mono hq).trans_eq (pyRound_intCast (n - 1))
    constructor
    · simp only [set_progress]
      exact clampNeg_nonneg _
    · simp only [set_progress]
      exact clampNeg_le hub (by omega)

/-- Witness for C6 on a 50-frame song. -/
theorem C6_witness : set_progress 50 500 = 24 ∧ set_progress 50 1000 = 50 - 1 :=
  ⟨(C6_set_progress_spec 50 (by norm_num)).2.2.1,
    (C6_set_progress_spec 50 (by norm_num)).2.1⟩

/-! ## Claim C2 -/

theorem toB4_length (n : ℕ) : (toB4 n).length = 4 := rfl

theorem fromLE_toB4 {n : ℕ} (h : n < 4294967296) : fromLE (toB4 n) = n := by
  simp only [toB4, fromLE, List.foldr]
  omega

theorem recvN_exact {k : ℕ} {l r : List ℕ} (h : l.length = k) :
    recvN k (l ++ r) = some (l, r) := by
  unfold recvN
  rw [if_pos (by simp [← h]), List.take_left' h, List.drop_left' h]

theorem recvN_all {l : List ℕ} : recvN l.length l = some (l, []) := by
  unfold recvN
  simp

theorem pyChunks_nil : pyChunks [] = [] := by
  rw [pyChunks]

theorem pyChunks_ne_nil {l : List ℕ} (h : l ≠ []) : pyChunks l ≠ [] := by
  cases l with
  | nil => exact absurd rfl h
  | cons a t => rw [pyChunks]; simp

theorem pyChunks_flatten : ∀ l : List ℕ, (pyChunks l).flatten = l := by
  intro l
  induction l using pyChunks.induct with
  | case1 => rw [pyChunks_nil]; rfl
  | case2 a t ih =>
    rw [pyChunks]
    simp only [List.flatten_cons, ih, List.take_append_drop]

theorem pyChunks_length_eq : ∀ l : List ℕ, (pyChunks l).length = (l.length + 1023) / 1024 := by
  intro l
  induction l using pyChunks.induct with
  | case1 => rw [pyChunks_nil]; rfl
  | case2 a t ih =>
    rw [pyChunks]
    simp only [List.length_cons, ih, List.length_drop]
    omega

theorem pyChunks_mem_length_le : ∀ (l : List ℕ) (c : List ℕ), c ∈ pyChunks l →
    c.length ≤ 1024 := by
  intro l
  induction l using pyChunks.induct with
  | case1 => intro c hc; rw [pyChunks_nil] at hc; simp at hc
  | case2 a t ih =>
    intro c hc
    rw [pyChunks] at hc
    rcases List.mem_cons.mp hc with rfl | hmem
    · simp only [List.length_take]
      omega
    · exact ih c hmem

theorem pyChunks_dropLast_full : ∀ (l : List ℕ) (c : List ℕ),
    c ∈ (pyChunks l).dropLast → c.length = 1024 := by
  intro l
  induction l using pyChunks.induct with
  | case1 => intro c hc; rw [pyChunks_nil] at hc; simp at hc
  | case2 a t ih =>
    intro c hc
    rw [pyChunks] at hc
    by_cases hrest : pyChunks ((a :: t).drop 1024) = []
    · rw [hrest] at hc
      simp at hc
    · rw [List.dropLast_cons_of_ne_nil hrest] at hc
      rcases List.mem_cons.mp hc with rfl | hmem
      · have hlong : 1024 < (a :: t).length := by
          by_contra hle
          exact hrest (by
            have hd : (a :: t).drop 1024 = [] := List.drop_eq_nil_of_le (by omega)
            rw [hd, pyChunks_nil])
        simp only [List.length_take]
        omega
      · exact ih c hmem

theorem recvChunks_flatten {rest : List ℕ} :
    ∀ cs : List (List ℕ), (∀ c ∈ cs, c.length = 1024) →
      recvChunks cs.length (cs.flatten ++ rest) = some (cs.flatten, rest) := by
  intro cs
  induction cs with
  | nil => intro _; rfl
  | cons c cs ih =>
    intro hc
    simp only [List.flatten_cons, List.length_cons, recvChunks, List.append_assoc,
      Option.bind_eq_bind]
    rw [recvN_exact (hc c (by simp)), Option.some_bind,
      ih (fun d hd => hc d (by simp [hd]))]
    rfl

/-- The chunked transfer round-trips on every nonempty payload whose
length `int.to_bytes` accepts. -/
theorem sendChunked_recvChunked (p : List ℕ) (hne : p ≠ [])
    (hlen : p.length < 4294967296) :
    (sendChunked p).bind recvChunked = some (p, []) := by
  have hdata_ne : pyChunks p ≠ [] := pyChunks_ne_nil hne
  have hlast : (pyChunks p).getLast? = some ((pyChunks p).getLast hdata_ne) :=
    List.getLast?_eq_getLast _ _
  set last := (pyChunks p).getLast hdata_ne with hlast_def
  have hdl : (p.length + 1023) / 1024 = (pyChunks p).length :=
    (pyChunks_length_eq p).symm
  have henc : sendChunked p =
      some (toB4 ((p.length + 1023) / 1024) ++ (pyChunks p).dropLast.flatten ++
        toB4 last.length ++ last) := by
    simp only [sendChunked, slice_song_bytes, hlast]
    rw [hdl, ← List.dropLast_eq_take]
  rw [henc, Option.some_bind]
  simp only [recvChunked, Option.bind_eq_bind]
  rw [List.append_assoc, List.append_assoc]
  rw [recvN_exact (toB4_length _), Option.some_bind]
  rw [fromLE_toB4 (by omega)]
  have hcs_len : (p.length + 1023) / 1024 - 1 = (pyChunks p).dropLast.length := by
    rw [hdl, List.length_dropLast]
  rw [hcs_len, recvChunks_flatten (pyChunks p).dropLast (pyChunks_dropLast_full p),
    Option.some_bind]
  rw [recvN_exact (toB4_length _), Option.some_bind]
  have hlast_le : last.length ≤ 1024 :=
    pyChunks_mem_length_le p last (List.getLast_mem hdata_ne)
  rw [fromLE_toB4 (by omega), recvN_all, Option.some_bind]
  have hjoin : (pyChunks p).dropLast.flatten ++ last = p := by
    conv_rhs => rw [← pyChunks_flatten p]
    rw [← List.dropLast_concat_getLast hdata_ne, ← hlast_def]
    simp
  rw [hjoin]

/-- Claim C2 is false at length 0: `slice_song_bytes` on an empty payload
returns an empty chunk list, so `_search_for_song` raises `IndexError` at
`data[-1]` and no round-trip happens. -/
theorem C2_roundtrip_fails_empty :
    (sendChunked ([] : List ℕ)).bind recvChunked ≠ some (([] : List ℕ), []) := by
  have h : sendChunked ([] : List ℕ) = none := by
    simp [sendChunked, slice_song_bytes, pyChunks_nil]
  rw [h]
  simp

/-- Claim C2 as amended: for every payload of length
`L ∈ {1, 1023, 1024, 1025, 2049}` (length 0 removed: there the sender
raises `IndexError`), encoding with the chunked-transfer scheme and
decoding with the receiver's scheme yields exactly the original bytes,
with nothing left on the stream. -/
theorem C2_roundtrip_amended (p : List ℕ)
    (h : p.length = 1 ∨ p.length = 1023 ∨ p.length = 1024 ∨ p.length = 1025 ∨
      p.length = 2049) :
    (sendChunked p).bind recvChunked = some (p, []) := by
  apply sendChunked_recvChunked
  · intro hnil
    rw [hnil] at h
    simp at h
  · omega

/-- Witness for the amended C2 at a 1-byte payload. -/
theorem C2_witness : (sendChunked [7]).bind recvChunked = some ([7], []) :=
  C2_roundtrip_amended [7] (Or.inl rfl)

/-! ## Claims C7, C8 and C9 -/

/-- With the stop flag never set, the frame loop emits every full read
prefixed by the `"data"` tag. -/
theorem sendFrames_no_stop :
    ∀ (reads : List (List ℕ)) (i : ℕ), (∀ r ∈ reads, r.length = 4096) →
      (sendFrames (fun _ => false) i reads).1 =
        (reads.map (fun r => dataTag ++ r)).flatten := by
  intro reads
  induction reads with
  | nil => intro i _; rfl
  | cons r rest ih =>
    intro i hr
    simp only [sendFrames, hr r (by simp), if_pos rfl, if_neg Bool.false_ne_true,
      List.map_cons, List.flatten_cons]
    rw [ih (i + 1) (fun d hd => hr d (by simp [hd]))]
    simp [List.append_assoc]

/-- The reader's packet loop consumes exactly `n` tagged full packets. -/
theorem readPackets_data :
    ∀ (ps : List (List ℕ)) (rest : List ℕ), (∀ p ∈ ps, p.length = 4096) →
      readPackets ps.length ((ps.map (fun r => dataTag ++ r)).flatten ++ rest) =
        some (ps, rest) := by
  intro ps
  induction ps with
  | nil => intro rest _; rfl
  | cons p ps ih =>
    intro rest hp
    simp only [List.map_cons, List.flatten_cons, List.length_cons, readPackets,
      Option.bind_eq_bind, List.append_assoc]
    rw [recvN_exact (show dataTag.length = 4 from rfl), Option.some_bind]
    rw [if_pos rfl]
    rw [recvN_exact (hp p (by simp)), Option.some_bind]
    rw [ih rest (fun d hd => hp d (by simp [hd])), Option.some_bind]

/-- Claim C7: when the catalog holds song id 7 with frame count 3 and
three full 4096-byte reads, and no termination is requested, the server
sends `[3][data][pkt0][data][pkt1][data][pkt2]`, and the client's reader
consumes that reply in full, leaving the buffer
`[pkt0, pkt1, pkt2, sentinel]` — the `END_OF_FILE` sentinel is appended
after the received frames. -/
theorem C7_end_to_end (p0 p1 p2 : List ℕ) (h0 : p0.length = 4096)
    (h1 : p1.length = 4096) (h2 : p2.length = 4096) :
    send_song_data (fun sid => if sid = 7 then some ([p0, p1, p2], 3) else none) 7
        (fun _ => false) =
      toB4 3 ++ dataTag ++ p0 ++ dataTag ++ p1 ++ dataTag ++ p2 ∧
      read_from_server
          (send_song_data (fun sid => if sid = 7 then some ([p0, p1, p2], 3) else none) 7
            (fun _ => false)) =
        some ([p0, p1, p2, sentinel], []) := by
  have hall : ∀ r ∈ [p0, p1, p2], r.length = 4096 := by
    intro r hr
    simp only [List.mem_cons, List.not_mem_nil, or_false] at hr
    rcases hr with rfl | rfl | rfl
    · exact h0
    · exact h1
    · exact h2
  have hsend : send_song_data (fun sid => if sid = 7 then some ([p0, p1, p2], 3) else none) 7
      (fun _ => false) = toB4 3 ++ ([p0, p1, p2].map (fun r => dataTag ++ r)).flatten := by
    have hdef : send_song_data (fun sid => if sid = 7 then some ([p0, p1, p2], 3) else none) 7
        (fun _ => false) = toB4 3 ++ (sendFrames (fun _ => false) 0 [p0, p1, p2]).1 := rfl
    rw [hdef, sendFrames_no_stop [p0, p1, p2] 0 hall]
  constructor
  · rw [hsend]
    simp [List.append_assoc]
  · rw [hsend]
    unfold read_from_server
    simp only [Option.bind_eq_bind]
    rw [recvN_exact (toB4_length 3), Option.some_bind, fromLE_toB4 (by omega)]
    rw [show (3 : ℕ) = ([p0, p1, p2].map (fun r => dataTag ++ r)).length by simp]
    rw [← List.append_nil (([p0, p1, p2].map (fun r => dataTag ++ r)).flatten)]
    rw [show ([p0, p1, p2].map (fun r => dataTag ++ r)).length = [p0, p1, p2].length by simp]
    rw [readPackets_data [p0, p1, p2] [] hall, Option.some_bind]
    rfl

/-- Witness for C7 at concrete 4096-byte packets. -/
theorem C7_witness :
    send_song_data
        (fun sid => if sid = 7 then
          some ([List.replicate 4096 9, List.replicate 4096 8, List.replicate 4096 7], 3)
          else none) 7 (fun _ => false) =
      toB4 3 ++ dataTag ++ List.replicate 4096 9 ++ dataTag ++ List.replicate 4096 8 ++
        dataTag ++ List.replicate 4096 7 ∧
      read_from_server
          (send_song_data
            (fun sid => if sid = 7 then
              some ([List.replicate 4096 9, List.replicate 4096 8, List.replicate 4096 7], 3)
              else none) 7 (fun _ => false)) =
        some ([List.replicate 4096 9, List.replicate 4096 8, List.replicate 4096 7,
          sentinel], []) :=
  C7_end_to_end (List.replicate 4096 9) (List.replicate 4096 8) (List.replicate 4096 7)
    (by rw [List.length_replicate]) (by rw [List.length_replicate])
    (by rw [List.length_replicate])

/-- Claim C8: for a song id absent from the catalog the server replies
with a 4-byte zero frame count and nothing else; the client's reader
then buffers only the sentinel, and the player loop writes no packet to
the audio device (and raises nothing: the loop body is never entered). -/
theorem C8_song_not_found (catalog : ℕ → Option (List (List ℕ) × ℕ)) (song_id : ℕ)
    (stops : ℕ → Bool) (h : catalog song_id = none) :
    send_song_data catalog song_id stops = toB4 0 ∧
      read_from_server (toB4 0) = some ([sentinel], []) ∧
      playerWrites [sentinel] = [] := by
  refine ⟨?_, ?_, ?_⟩
  · unfold send_song_data
    rw [h]
  · rfl
  · rfl

/-- Witness for C8 at an empty catalog. -/
theorem C8_witness :
    send_song_data (fun _ => none) 7 (fun _ => false) = toB4 0 ∧
      read_from_server (toB4 0) = some ([sentinel], []) ∧
      playerWrites [sentinel] = [] :=
  C8_song_not_found (fun _ => none) 7 (fun _ => false) rfl

/-- Claim C9, general over the start index: if the stop flag is first
observed set at the check before frame `j` (and frame `j` would have
been full), the loop's output is exactly the first `j` full frames —
each sent whole with its `"data"` tag — followed by the `"exit"` tag,
with nothing sent after it, and the flag ends cleared (`false`). -/
theorem sendFrames_stop (stops : ℕ → Bool) :
    ∀ (reads : List (List ℕ)) (i j : ℕ),
      (∀ m, m < j → stops (i + m) = false) → stops (i + j) = true →
      j < (reads.takeWhile (fun r => r.length == 4096)).length →
      sendFrames stops i reads =
        ((((reads.takeWhile (fun r => r.length == 4096)).take j).map
            (fun r => dataTag ++ r)).flatten ++ exitTag, false) := by
  intro reads
  induction reads with
  | nil =>
    intro i j _ _ hlt
    simp at hlt
  | cons r rest ih =>
    intro i j hbefore hj hlt
    cases hfull : (r.length == 4096) with
    | false =>
      rw [List.takeWhile_cons, hfull] at hlt
      simp at hlt
    | true =>
      have hrlen : r.length = 4096 := by simpa using hfull
      rw [List.takeWhile_cons, hfull] at hlt ⊢
      cases j with
      | zero =>
        have hstop : stops i = true := by simpa using hj
        simp only [sendFrames, if_pos hrlen, hstop, if_pos rfl]
        simp
      | succ j =>
        have hstop : stops i = false := by simpa using hbefore 0 (by omega)
        simp only [sendFrames, if_pos hrlen, hstop]
        rw [if_neg Bool.false_ne_true]
        rw [ih (i + 1) j
          (fun m hm => by
            have := hbefore (m + 1) (by omega)
            simpa [Nat.add_assoc, Nat.add_comm 1 m] using this)
          (by
            have : i + 1 + j = i + (j + 1) := by omega
            rw [this]
            exact hj)
          (by simpa using hlt)]
        simp [List.append_assoc]

/-- Claim C9 at the loop's real start index 0: during a transfer the
stop flag is observed only at frame boundaries (every frame in the
output is a complete tagged 4096-byte read), and at the first boundary
where it is observed set the handler clears the flag (final flag
`false`), sends the 4-byte `"exit"` tag, and sends no further frames. -/
theorem C9_stop_at_boundary (reads : List (List ℕ)) (stops : ℕ → Bool) (j : ℕ)
    (hbefore : ∀ m, m < j → stops m = false) (hj : stops j = true)
    (hlt : j < (reads.takeWhile (fun r => r.length == 4096)).length) :
    sendFrames stops 0 reads =
      ((((reads.takeWhile (fun r => r.length == 4096)).take j).map
          (fun r => dataTag ++ r)).flatten ++ exitTag, false) :=
  sendFrames_stop stops reads 0 j (fun m hm => by simpa using hbefore m hm)
    (by simpa using hj) hlt

/-- Witness for C9: two full frames queued, the flag set during the
first frame's transmission; the output is the complete first frame then
the exit tag, and the flag is cleared. -/
theorem C9_witness :
    sendFrames (fun i => i == 1) 0 [List.replicate 4096 9, List.replicate 4096 8] =
      (((([List.replicate 4096 9, List.replicate 4096 8].takeWhile
            (fun r => r.length == 4096)).take 1).map
          (fun r => dataTag ++ r)).flatten ++ exitTag, false) :=
  C9_stop_at_boundary [List.replicate 4096 9, List.replicate 4096 8] (fun i => i == 1) 1
    (by
      intro m hm
      have hm0 : m = 0 := by omega
      rw [hm0]
      rfl)
    rfl
    (by
      have h9 : ((List.replicate 4096 9).length == 4096) = true := by
        rw [List.length_replicate]
        decide
      have h8 : ((List.replicate 4096 8).length == 4096) = true := by
        rw [List.length_replicate]
        decide
      rw [List.takeWhile_cons, h9, List.takeWhile_cons, h8, List.takeWhile_nil,
        if_pos rfl, if_pos rfl, List.length_cons, List.length_cons, List.length_nil]
      omega)

/-! ## Claim C3 -/

theorem findIdx?_some_spec {α : Type*} {l : List α} {p : α → Bool} {i : ℕ}
    (h : l.findIdx? p = some i) :
    i < l.length ∧ ∃ a, l[i]? = some a ∧ p a = true := by
  obtain ⟨hi, hp, -⟩ := List.findIdx?_eq_some_iff_getElem.mp h
  exact ⟨hi, l[i], List.getElem?_eq_getElem hi, hp⟩

theorem findIdx?_isSome_of_mem {α : Type*} {l : List α} {p : α → Bool} {a : α}
    (ha : a ∈ l) (hp : p a = true) : (l.findIdx? p).isSome := by
  rw [List.findIdx?_isSome, List.any_eq_true]
  exact ⟨a, ha, hp⟩

/-- The restoration invariant of the `unshuffle` loop: positions other
than `cur` and `i0` that the loop has passed hold the song whose id the
insertion order records, where `i0` is the insertion-order index of the
id parked at the untouchable position `cur`. -/
theorem unshuffleGo_restore (ids : List ℕ) (hnd : ids.Nodup) (cur i0 x0 : ℕ)
    (hi0 : ids[i0]? = some x0) :
    ∀ (fuel i : ℕ) (ql : List Song),
      i + fuel = ids.length →
      ql.map Song.song_id ~ ids →
      (∃ scur, ql[cur]? = some scur ∧ scur.song_id = x0) →
      (∀ j, j < i → j ≠ cur → j ≠ i0 → (ql.map Song.song_id)[j]? = ids[j]?) →
      ∀ j, j < ids.length → j ≠ cur → j ≠ i0 →
        ((unshuffleGo (ids.map QEntry.eid) cur fuel i ql).map Song.song_id)[j]? =
          ids[j]? := by
  intro fuel
  induction fuel with
  | zero =>
    intro i ql hfuel hperm hcur hinv j hj hjc hji
    exact hinv j (by omega) hjc hji
  | succ n ih =>
    intro i ql hfuel hperm hcur hinv j hj hjc hji
    have hi_lt : i < ids.length := by omega
    have hlen_ql : ql.length = ids.length := by
      have := hperm.length_eq
      simpa using this
    have hnd_ql : (ql.map Song.song_id).Nodup := (hperm.nodup_iff).mpr hnd
    obtain ⟨scur, hscur, hscur_id⟩ := hcur
    -- the ordered entry at i
    have hoid : ids[i]? = some ids[i] := List.getElem?_eq_getElem hi_lt
    have hmape : (ids.map QEntry.eid)[i]? = some (QEntry.eid ids[i]) := by
      rw [List.getElem?_map, hoid]
      rfl
    -- the find step succeeds
    have hmem : ids[i] ∈ ql.map Song.song_id :=
      hperm.mem_iff.mpr (List.getElem?_mem hoid)
    obtain ⟨s, hs_mem, hs_id⟩ := List.mem_map.mp hmem
    have hfind_some : (ql.findIdx? (fun t => idEqEntry t.song_id (QEntry.eid ids[i]))).isSome :=
      findIdx?_isSome_of_mem hs_mem (by simp [idEqEntry, hs_id])
    obtain ⟨oi, hfind⟩ := Option.isSome_iff_exists.mp hfind_some
    obtain ⟨hoi_lt, t, ht_get, ht_p⟩ := findIdx?_some_spec hfind
    have ht_id : t.song_id = ids[i] := by
      simpa [idEqEntry] using ht_p
    -- one loop step
    have hstep : unshuffleGo (ids.map QEntry.eid) cur (n + 1) i ql =
        unshuffleGo (ids.map QEntry.eid) cur n (i + 1)
          (if i ≠ cur ∧ oi ≠ cur then listSwap ql i oi else ql) := by
      simp only [unshuffleGo, hmape, hfind]
    rw [hstep]
    by_cases hcond : i ≠ cur ∧ oi ≠ cur
    · -- the swap happens
      rw [if_pos hcond]
      obtain ⟨hic, hoc⟩ := hcond
      have hql' : ∀ k, k ≠ i → k ≠ oi → (listSwap ql i oi)[k]? = ql[k]? :=
        fun k hki hkoi => listSwap_getElem?_ne hki hkoi
      refine ih (i + 1) (listSwap ql i oi) (by omega)
        (((listSwap_perm ql i oi).map Song.song_id).trans hperm)
        ⟨scur, by rw [hql' cur (Ne.symm hic) (Ne.symm hoc)]; exact hscur, hscur_id⟩
        ?_ j hj hjc hji
      intro k hk hkc hki0
      rcases Nat.lt_succ_iff_lt_or_eq.mp hk with hk_lt | rfl
      · -- previously restored positions are untouched
        have hkoi : k ≠ oi := by
          intro hkeq
          have hinv_k := hinv k hk_lt hkc hki0
          rw [List.getElem?_map, hkeq, ht_get] at hinv_k
          have heq : ids[oi]? = ids[i]? := by
            rw [← hinv_k, hoid]
            simp [ht_id]
          have := List.getElem?_inj (by omega) hnd heq
          omega
        rw [List.getElem?_map, hql' k (by omega) hkoi, ← List.getElem?_map]
        exact hinv k hk_lt hkc hki0
      · -- position i now holds the song with id `ids[i]`
        rw [List.getElem?_map,
          listSwap_getElem?_left (by omega) hoi_lt, ht_get, hoid]
        simp [ht_id]
    · -- the skipped step: i is cur itself or i = i0
      rw [if_neg hcond]
      refine ih (i + 1) ql (by omega) hperm ⟨scur, hscur, hscur_id⟩ ?_ j hj hjc hji
      intro k hk hkc hki0
      rcases Nat.lt_succ_iff_lt_or_eq.mp hk with hk_lt | rfl
      · exact hinv k hk_lt hkc hki0
      · -- k = i: show this case is impossible, i.e. i ∈ {cur, i0}
        exfalso
        rcases Decidable.not_and_iff_or_not.mp hcond with hic | hoc
        · exact hkc (Decidable.not_not.mp hic)
        · have hoi_cur : oi = cur := Decidable.not_not.mp hoc
          rw [hoi_cur, hscur] at ht_get
          have hts : scur = t := Option.some.inj ht_get
          have heq2 : ids[i0]? = ids[k]? := by
            rw [hi0, hoid, ← hscur_id, hts, ht_id]
          have hi0_lt : i0 < ids.length := by
            by_contra hge
            rw [List.getElem?_eq_none (by omega)] at hi0
            exact Option.noConfusion hi0
          have := List.getElem?_inj hi0_lt hnd heq2
          exact hki0 this.symm

/-- Claim C3 is false as stated.  Take play order with ids `[3, 1, 2]`,
insertion order `[1, 2, 3]`, and current index `k = 1`.  The position
that held `insertion-order[1] = 2` before restoration is position 2 (as
the second conjunct checks), so the claim permits only positions 1 and 2
to end unrestored; but after `unshuffle 1` position 0 holds id 2 instead
of `insertion-order[0] = 1`. -/
theorem C3_counterexample :
    (qShuffled.queue.map Song.song_id)[2]? = some 2 ∧
      ((qShuffled.unshuffle 1).queue.map Song.song_id)[0]? ≠ some 1 := by
  constructor
  · decide
  · decide

/-- Claim C3 as amended: for a `SongQueue` with pairwise-distinct
identifiers whose play order is a permutation of its insertion order,
and an in-range current index `cur`, after `unshuffle cur` every
position `j` holds the song whose identifier is `insertion-order[j]`,
except possibly position `cur` itself and the insertion-order index `i0`
at which the insertion order records the identifier of the song sitting
at position `cur` (not, as claimed, the position that held
`insertion-order[cur]` before restoration). -/
theorem C3_unshuffle_amended (q : SongQueue) (ids : List ℕ) (cur i0 : ℕ)
    (hord : q.ordered = ids.map QEntry.eid)
    (hperm : q.queue.map Song.song_id ~ ids)
    (hnd : ids.Nodup)
    (hcur : cur < q.queue.length)
    (hi0 : ids[i0]? = (q.queue[cur]?).map Song.song_id) :
    ∀ j, j < q.queue.length → j ≠ cur → j ≠ i0 →
      ((q.unshuffle cur).queue.map Song.song_id)[j]? = ids[j]? := by
  intro j hj hjc hji
  have hne : ¬ q.queue.isEmpty := by
    rw [List.isEmpty_iff]
    intro h
    rw [h] at hcur
    simp at hcur
  have hlen : q.queue.length = ids.length := by
    have := hperm.length_eq
    simpa using this
  obtain ⟨scur, hscur⟩ : ∃ s, q.queue[cur]? = some s :=
    ⟨q.queue[cur], List.getElem?_eq_getElem hcur⟩
  have hi0' : ids[i0]? = some scur.song_id := by
    rw [hi0, hscur]
    rfl
  unfold SongQueue.unshuffle
  rw [if_neg hne, hord]
  exact unshuffleGo_restore ids hnd cur i0 scur.song_id hi0' q.queue.length 0 q.queue
    (by omega) hperm ⟨scur, hscur, rfl⟩ (fun k hk => absurd hk (by omega))
    j (by omega) hjc hji

/-- Witness for the amended C3: play ids `[3, 2, 1]`, insertion order
`[1, 2, 3]`, current index 1 (so `i0 = 1` as well); positions 0 and 2
are restored. -/
theorem C3_amended_witness :
    ((qShuffled2.unshuffle 1).queue.map Song.song_id)[0]? = [1, 2, 3][0]? ∧
      ((qShuffled2.unshuffle 1).queue.map Song.song_id)[2]? = [1, 2, 3][2]? :=
  ⟨C3_unshuffle_amended qShuffled2 [1, 2, 3] 1 1 (by decide) (by decide) (by decide)
      (by decide) (by decide) 0 (by decide) (by decide) (by decide),
    C3_unshuffle_amended qShuffled2 [1, 2, 3] 1 1 (by decide) (by decide) (by decide)
      (by decide) (by decide) 2 (by decide) (by decide) (by decide)⟩

end MusicApp
